import Mathlib

/-!
Verification of the feedback-driven ranking core of the Intelligent Code
Review Assistant (Go). The definitions below are a shallow embedding of
the Go sources: `internal/models` (Issue, LearningData),
`internal/ml/data_collector.go` (DataCollector), `internal/ml` learning
engine (AdjustIssueConfidence, FilterIssues, SortIssues), `internal/cmd`
(ApplyLearning) and `internal/analyzer` (Analyzer.Analyze).

Go `float64` arithmetic on acceptance rates and combined scores is
embedded as exact rational arithmetic (`ℚ`); the Go in-memory map from
rule id to its learning records is embedded as an insertion-ordered
association list, matching the spec's description of the store as a
mapping from rule identifier to an insertion-ordered record sequence.
-/

namespace CodeReview

/-- `models.Issue` from the Go source (`internal/models/models.go`). -/
structure Issue where
  file : String
  line : Int
  column : Int
  message : String
  category : String
  severity : String
  confidence : String
  suggestion : String
  code : String
  rule : String
deriving Repr, DecidableEq

/-- `models.LearningData`: one historical observation kept by the
feedback store. The Go `time.Time` timestamp is embedded as a `Nat`
supplied by the caller (the clock is an external input). -/
structure LearningData where
  issue : Issue
  accepted : Bool
  repository : String
  timestamp : Nat
deriving Repr, DecidableEq

/-- The in-memory state of `ml.DataCollector.issueData`: a map from rule
identifier to the records stored under that rule, embedded as an
insertion-ordered association list (each rule id occurs at most once). -/
abbrev Store := List (String × List LearningData)

/-- Lookup in the store, mirroring `c.issueData[ruleID]` with its `ok`
flag: `none` when the rule key is absent. -/
def storeFind (s : Store) (ruleID : String) : Option (List LearningData) :=
  match s with
  | [] => none
  | (r, ds) :: rest => if r = ruleID then some ds else storeFind rest ruleID

/-- `c.issueData[rule] = append(c.issueData[rule], d)`: append a record
under a rule key, creating the key (at the end, preserving insertion
order) when absent. -/
def storeAppend (s : Store) (ruleID : String) (d : LearningData) : Store :=
  match s with
  | [] => [(ruleID, [d])]
  | (r, ds) :: rest =>
      if r = ruleID then (r, ds ++ [d]) :: rest
      else (r, ds) :: storeAppend rest ruleID d

/-- `DataCollector.GetAcceptanceRate`: accepted records over total
records for the rule, defaulting to 0.5 when the rule has no data
(`!ok || len(issues) == 0`). -/
def GetAcceptanceRate (s : Store) (ruleID : String) : ℚ :=
  match storeFind s ruleID with
  | none => 1/2
  | some issues =>
      if issues.length = 0 then 1/2
      else (issues.countP (·.accepted) : ℚ) / (issues.length : ℚ)

/-- `DataCollector.GetRuleConfidence`: thresholds the acceptance rate at
0.8 and 0.5. -/
def GetRuleConfidence (s : Store) (ruleID : String) : String :=
  let rate := GetAcceptanceRate s ruleID
  if rate ≥ 4/5 then "high"
  else if rate ≥ 1/2 then "medium"
  else "low"

/-- `LearningEngine.AdjustIssueConfidence`. The Go method mutates
`issue.Confidence` in place; the embedding returns the updated issue.
`enableLearning` is `e.config.EnableLearning`. -/
def AdjustIssueConfidence (enableLearning : Bool) (s : Store) (issue : Issue) :
    Issue :=
  if !enableLearning then issue
  else
    let confidence := GetRuleConfidence s issue.rule
    match issue.confidence with
    | "high" =>
        if confidence = "low" then { issue with confidence := "medium" }
        else issue
    | "medium" =>
        if confidence = "high" then { issue with confidence := "high" }
        else if confidence = "low" then { issue with confidence := "low" }
        else issue
    | "low" =>
        if confidence = "high" then { issue with confidence := "medium" }
        else issue
    | _ => issue

/-- `LearningEngine.FilterIssues`: with learning enabled, keep exactly
the issues whose rule acceptance rate is ≥ 0.3. -/
def FilterIssues (enableLearning : Bool) (s : Store) (issues : List Issue) :
    List Issue :=
  if !enableLearning then issues
  else issues.filter (fun issue => GetAcceptanceRate s issue.rule ≥ 3/10)

/-- `getSeverityScore` from the learning engine. -/
def getSeverityScore (severity : String) : Int :=
  match severity with
  | "critical" => 4
  | "high" => 3
  | "medium" => 2
  | "low" => 1
  | _ => 0

/-- The combined score used by `SortIssues`:
`float64(severity) * (0.5 + 0.5*rate)`, in exact arithmetic. -/
def combinedScore (s : Store) (issue : Issue) : ℚ :=
  (getSeverityScore issue.severity : ℚ) *
    (1/2 + 1/2 * GetAcceptanceRate s issue.rule)

/-- `DataCollector.RecordIssue`: with learning enabled, append one
record with `accepted = false` under the issue's rule and persist. The
synchronous persistence (`saveData`) writes the returned store in full;
its I/O is outside the embedding and assumed to succeed. -/
def RecordIssue (enableLearning : Bool) (s : Store) (issue : Issue)
    (repository : String) (now : Nat) : Store :=
  if !enableLearning then s
  else storeAppend s issue.rule
    { issue := issue, accepted := false, repository := repository, timestamp := now }

/-- The string key `data.Issue.File + ":" + fmt.Sprint(data.Issue.Line)
+ ":" + data.Issue.Message` that `RecordFeedback` compares against the
supplied issue id. -/
def feedbackKey (d : LearningData) : String :=
  d.issue.file ++ ":" ++ toString d.issue.line ++ ":" ++ d.issue.message

/-- Inner loop of `RecordFeedback` over one rule's record list: update
the first record whose key matches, or report that none does. -/
def updateFirstMatch (issueID : String) (accepted : Bool) :
    List LearningData → Option (List LearningData)
  | [] => none
  | d :: rest =>
      if feedbackKey d = issueID then
        some ({ d with accepted := accepted } :: rest)
      else
        match updateFirstMatch issueID accepted rest with
        | some rest' => some (d :: rest')
        | none => none

/-- Outer loop of `RecordFeedback` over the rules of the store (the Go
`range` over the map, embedded in the association list's order). -/
def recordFeedbackLoop (issueID : String) (accepted : Bool) :
    Store → Except String Store
  | [] => Except.error ("issue not found: " ++ issueID)
  | (r, ds) :: rest =>
      match updateFirstMatch issueID accepted ds with
      | some ds' => Except.ok ((r, ds') :: rest)
      | none =>
          match recordFeedbackLoop issueID accepted rest with
          | Except.ok rest' => Except.ok ((r, ds) :: rest')
          | Except.error e => Except.error e

/-- `DataCollector.RecordFeedback`: find the first record (over all
rules, in order; then within a rule, in insertion order) whose
(file, line, message) key equals `issueID`, set its accepted flag and
persist; error "issue not found" otherwise. Disabled learning is a
no-op returning success. -/
def RecordFeedback (enableLearning : Bool) (s : Store) (issueID : String)
    (accepted : Bool) : Except String Store :=
  if !enableLearning then Except.ok s
  else recordFeedbackLoop issueID accepted s

/-! ## `LearningEngine.SortIssues` and the Go 1.18 `sort.Slice`

The repository targets Go 1.18 (CONTRIBUTING: "Go 1.18 or later").
`sort.Slice` in Go 1.18 is `quickSort_func` over a `lessSwap`; the
comparison closure in `SortIssues` reads the slice being sorted, so the
embedded `Less` takes the current array. All loops below mirror
`go/src/sort/zfuncversion.go` of Go 1.18; loops with data-dependent
trip counts are rendered with an explicit fuel that dominates their
real iteration count (each loop moves an index monotonically inside
`[a, b)`, so any fuel ≥ the slice length is enough). -/

/-- The slice being sorted is embedded as a `List Issue` indexed through
`List.getD`/`List.set` (reads and in-place writes of `sorted[i]`).
`dummyIssue` is the `getD` placeholder; every index the sort touches is
in bounds, so it is never returned. -/
def dummyIssue : Issue :=
  { file := "", line := 0, column := 0, message := "", category := "",
    severity := "", confidence := "", suggestion := "", code := "", rule := "" }

/-- Read `sorted[i]`. -/
def getIssue (arr : List Issue) (i : Nat) : Issue := arr.getD i dummyIssue

/-- The `less` closure passed to `sort.Slice` by `SortIssues`:
`iScore > jScore` where score = severity × (0.5 + 0.5 × rate). -/
def lessIdx (s : Store) (arr : List Issue) (i j : Nat) : Bool :=
  decide (combinedScore s (getIssue arr j) < combinedScore s (getIssue arr i))

/-- `data.Swap(i, j)`. -/
def swapIdx (arr : List Issue) (i j : Nat) : List Issue :=
  let ti := getIssue arr i
  let tj := getIssue arr j
  (arr.set i tj).set j ti

/-- Inner loop of `insertionSort_func`:
`for j := i; j > a && data.Less(j, j-1); j--  { data.Swap(j, j-1) }`. -/
def insertionSortInner (s : Store) (a : Nat) (arr : List Issue) :
    Nat → List Issue
  | 0 => arr
  | j + 1 =>
      if a < j + 1 && lessIdx s arr (j+1) j then
        insertionSortInner s a (swapIdx arr (j+1) j) j
      else arr

/-- Outer loop of `insertionSort_func`: `for i := a + 1; i < b; i++`. -/
def insertionSortOuter (s : Store) (a b : Nat) (arr : List Issue) (i : Nat) :
    List Issue :=
  if i < b then insertionSortOuter s a b (insertionSortInner s a arr i) (i+1)
  else arr
termination_by b - i
decreasing_by omega

/-- `insertionSort_func(data, a, b)`. -/
def insertionSortGo (s : Store) (arr : List Issue) (a b : Nat) : List Issue :=
  insertionSortOuter s a b arr (a+1)

/-- The ShellSort pass with gap 6 done before insertion sort for
segments of at most 12 elements:
`for i := a + 6; i < b; i++ { if data.Less(i, i-6) { data.Swap(i, i-6) } }`. -/
def shellPassLoop (s : Store) (b : Nat) (arr : List Issue) (i : Nat) :
    List Issue :=
  if i < b then
    shellPassLoop s b
      (if lessIdx s arr i (i-6) then swapIdx arr i (i-6) else arr) (i+1)
  else arr
termination_by b - i
decreasing_by omega

/-- `medianOfThree_func(data, m1, m0, m2)`. -/
def medianOfThree (s : Store) (arr : List Issue) (m1 m0 m2 : Nat) :
    List Issue :=
  let arr := if lessIdx s arr m1 m0 then swapIdx arr m1 m0 else arr
  if lessIdx s arr m2 m1 then
    let arr := swapIdx arr m2 m1
    if lessIdx s arr m1 m0 then swapIdx arr m1 m0 else arr
  else arr

/-- `for ; a < c && data.Less(a, pivot); a++` in `doPivot_func`. -/
def doPivotSkipA (s : Store) (arr : List Issue) (pivot c a : Nat) : Nat :=
  if a < c ∧ lessIdx s arr a pivot then doPivotSkipA s arr pivot c (a+1)
  else a
termination_by c - a
decreasing_by omega

/-- `for ; b < c && !data.Less(pivot, b); b++` in `doPivot_func`. -/
def doPivotFwd (s : Store) (arr : List Issue) (pivot c b : Nat) : Nat :=
  if b < c ∧ !(lessIdx s arr pivot b) then doPivotFwd s arr pivot c (b+1)
  else b
termination_by c - b
decreasing_by omega

/-- `for ; b < c && data.Less(pivot, c-1); c--` in `doPivot_func`. -/
def doPivotBack (s : Store) (arr : List Issue) (pivot b c : Nat) : Nat :=
  if b < c ∧ lessIdx s arr pivot (c-1) then doPivotBack s arr pivot b (c-1)
  else c
termination_by c
decreasing_by omega

/-- The central partition loop of `doPivot_func` (swap `b`/`c-1` until
the scans cross). Each iteration shrinks `c - b` by two, so `fuel` equal
to the segment bound is ample. -/
def doPivotLoop (s : Store) (pivot : Nat) :
    Nat → List Issue → Nat → Nat → List Issue × Nat × Nat
  | 0, arr, b, c => (arr, b, c)
  | fuel + 1, arr, b, c =>
      let b := doPivotFwd s arr pivot c b
      let c := doPivotBack s arr pivot b c
      if b ≥ c then (arr, b, c)
      else doPivotLoop s pivot fuel (swapIdx arr b (c-1)) (b+1) (c-1)

/-- `for ; a < b && !data.Less(b-1, pivot); b--` in the protect path. -/
def protectBack (s : Store) (arr : List Issue) (pivot a b : Nat) : Nat :=
  if a < b ∧ !(lessIdx s arr (b-1) pivot) then protectBack s arr pivot a (b-1)
  else b
termination_by b
decreasing_by omega

/-- `for ; a < b && data.Less(a, pivot); a++` in the protect path. -/
def protectFwd (s : Store) (arr : List Issue) (pivot b a : Nat) : Nat :=
  if a < b ∧ lessIdx s arr a pivot then protectFwd s arr pivot b (a+1)
  else a
termination_by b - a
decreasing_by omega

/-- The protect loop of `doPivot_func` (swap `a`/`b-1` until the scans
cross); returns the array and the final `b`. -/
def protectLoop (s : Store) (pivot : Nat) :
    Nat → List Issue → Nat → Nat → List Issue × Nat
  | 0, arr, _, b => (arr, b)
  | fuel + 1, arr, a, b =>
      let b := protectBack s arr pivot a b
      let a := protectFwd s arr pivot b a
      if a ≥ b then (arr, b)
      else protectLoop s pivot fuel (swapIdx arr a (b-1)) (a+1) (b-1)

/-- `doPivot_func(data, lo, hi)`: returns the permuted array and
`(midlo, midhi)`. Only called with `hi - lo > 12`, so the `Nat`
subtractions never truncate on reachable inputs. -/
def doPivot (s : Store) (arr0 : List Issue) (lo hi : Nat) :
    List Issue × Nat × Nat :=
  let m := (lo + hi) / 2
  let arr :=
    if hi - lo > 40 then
      let step := (hi - lo) / 8
      let arr := medianOfThree s arr0 lo (lo + step) (lo + 2*step)
      let arr := medianOfThree s arr m (m - step) (m + step)
      medianOfThree s arr (hi-1) (hi-1-step) (hi-1-2*step)
    else arr0
  let arr := medianOfThree s arr lo m (hi-1)
  let pivot := lo
  let a := doPivotSkipA s arr pivot (hi-1) (lo+1)
  let (arr, b, c) := doPivotLoop s pivot hi arr a (hi-1)
  let protect := decide (hi - c < 5)
  let (arr, b, c, protect) :=
    if !protect && decide (hi - c < (hi - lo) / 4) then
      let dups := 0
      let (arr, c, dups) :=
        if !(lessIdx s arr pivot (hi-1)) then (swapIdx arr c (hi-1), c+1, dups+1)
        else (arr, c, dups)
      let (b, dups) :=
        if !(lessIdx s arr (b-1) pivot) then (b-1, dups+1) else (b, dups)
      let (arr, b, dups) :=
        if !(lessIdx s arr m pivot) then (swapIdx arr m (b-1), b-1, dups+1)
        else (arr, b, dups)
      (arr, b, c, decide (dups > 1))
    else (arr, b, c, protect)
  let (arr, b) := if protect then protectLoop s pivot hi arr a b else (arr, b)
  (swapIdx arr pivot (b-1), b-1, c)

/-- `siftDown_func(data, lo, hi, first)` with `root` starting at `lo`;
the root at least doubles each step, so `fuel = hi` is ample. -/
def siftDown (s : Store) : Nat → List Issue → Nat → Nat → Nat → List Issue
  | 0, arr, _, _, _ => arr
  | fuel + 1, arr, root, hi, first =>
      let child := 2*root + 1
      if child ≥ hi then arr
      else
        let child :=
          if child + 1 < hi && lessIdx s arr (first+child) (first+child+1) then
            child + 1
          else child
        if !(lessIdx s arr (first+root) (first+child)) then arr
        else siftDown s fuel (swapIdx arr (first+root) (first+child)) child hi first

/-- Heap-building loop of `heapSort_func`:
`for i := (hi - 1) / 2; i >= 0; i--`, run here for `i, i-1, …, 0`. -/
def heapBuildLoop (s : Store) (hi first : Nat) (arr : List Issue) :
    Nat → List Issue
  | 0 => siftDown s hi arr 0 hi first
  | i + 1 => heapBuildLoop s hi first (siftDown s hi arr (i+1) hi first) i

/-- Extraction loop of `heapSort_func`:
`for i := hi - 1; i >= 0; i-- { Swap(first, first+i); siftDown(lo, i, first) }`,
called with `k = hi` so the body runs for `i = k - 1` at each step. -/
def heapExtractLoop (s : Store) (hi first : Nat) (arr : List Issue) :
    Nat → List Issue
  | 0 => arr
  | k + 1 =>
      let arr := swapIdx arr first (first + k)
      let arr := siftDown s hi arr 0 k first
      heapExtractLoop s hi first arr k

/-- `heapSort_func(data, a, b)`. -/
def heapSortGo (s : Store) (arr : List Issue) (a b : Nat) : List Issue :=
  let first := a
  let hi := b - a
  let arr := heapBuildLoop s hi first arr ((hi - 1) / 2)
  heapExtractLoop s hi first arr hi

/-- `quickSort_func(data, a, b, maxDepth)`. The Go `for b-a > 12` loop
recurses on the smaller half and continues the loop on the other half;
here both become recursive calls, which compute the same array. The
recursion depth is below the slice length plus `maxDepth`, so the fuel
passed by `sortSliceGo` is never exhausted. -/
def quickSortGo (s : Store) : Nat → List Issue → Nat → Nat → Nat → List Issue
  | 0, arr, _, _, _ => arr
  | fuel + 1, arr, a, b, maxDepth =>
      if b - a > 12 then
        if maxDepth = 0 then heapSortGo s arr a b
        else
          let (arr, mlo, mhi) := doPivot s arr a b
          if mlo - a < b - mhi then
            let arr := quickSortGo s fuel arr a mlo (maxDepth - 1)
            quickSortGo s fuel arr mhi b (maxDepth - 1)
          else
            let arr := quickSortGo s fuel arr mhi b (maxDepth - 1)
            quickSortGo s fuel arr a mlo (maxDepth - 1)
      else if b - a > 1 then
        let arr := shellPassLoop s b arr (a + 6)
        insertionSortGo s arr a b
      else arr

/-- The bit-length loop of `sort.maxDepth`:
`for i := n; i > 0; i >>= 1 { depth++ }`. -/
def bitsDepth (n : Nat) : Nat :=
  if n = 0 then 0 else bitsDepth (n / 2) + 1
termination_by n
decreasing_by omega

/-- `sort.maxDepth(n) = 2 * ceil(lg(n+1))`. -/
def maxDepthGo (n : Nat) : Nat := 2 * bitsDepth n

/-- `sort.Slice(sorted, less)` for Go 1.18:
`quickSort_func(lessSwap{less, swap}, 0, length, maxDepth(length))`. -/
def sortSliceGo (s : Store) (arr : List Issue) : List Issue :=
  quickSortGo s (arr.length + maxDepthGo arr.length + 2) arr 0 arr.length
    (maxDepthGo arr.length)

/-- `LearningEngine.SortIssues`: with learning enabled and more than one
issue, copy the slice and `sort.Slice` it by descending combined
score. -/
def SortIssues (enableLearning : Bool) (s : Store) (issues : List Issue) :
    List Issue :=
  if !enableLearning || issues.length ≤ 1 then issues
  else sortSliceGo s issues

/-! ## Insights and `cmd.ApplyLearning` -/

/-- `ruleCounts[issue.Rule]++` over an association list keeping
first-occurrence order (the embedding's rendering of the Go map). -/
def bumpCount : List (String × Nat) → String → List (String × Nat)
  | [], r => [(r, 1)]
  | (x, n) :: rest, r =>
      if x = r then (x, n+1) :: rest else (x, n) :: bumpCount rest r

/-- Lookup in a rule-count association list. -/
def countFor (counts : List (String × Nat)) (rule : String) : Nat :=
  match counts with
  | [] => 0
  | (x, n) :: rest => if x = rule then n else countFor rest rule

/-- `LearningEngine.AnalyzeProjectPatterns`: report rules occurring at
least 3 times, with the two-digit count rendered by the source's rune
arithmetic `'0'+count/10`, `'0'+count%10`. -/
def AnalyzeProjectPatterns (enableLearning : Bool) (repository : String)
    (issues : List Issue) : List String :=
  if !enableLearning then []
  else
    let _ := repository
    let ruleCounts := issues.foldl (fun counts issue => bumpCount counts issue.rule) []
    let frequentRules := (ruleCounts.filter (fun p => p.2 ≥ 3)).map (·.1)
    if frequentRules.length > 0 then
      "Common issues in this project:" ::
        frequentRules.map (fun rule =>
          let count := countFor ruleCounts rule
          "- " ++ rule ++ ": occurs " ++
            String.singleton (Char.ofNat (48 + count / 10)) ++
            String.singleton (Char.ofNat (48 + count % 10)) ++ " times")
    else []

/-- Inner exchange loop of `DataCollector.GetTopRules`. -/
def topRulesInner (n i : Nat) (arr : List (String × ℚ)) (j : Nat) :
    List (String × ℚ) :=
  if j < n then
    let arr :=
      if (arr.getD j ("", 0)).2 > (arr.getD i ("", 0)).2 then
        let ti := arr.getD i ("", 0)
        let tj := arr.getD j ("", 0)
        (arr.set i tj).set j ti
      else arr
    topRulesInner n i arr (j+1)
  else arr
termination_by n - j
decreasing_by omega

/-- Outer exchange loop of `DataCollector.GetTopRules`. -/
def topRulesOuter (n : Nat) (arr : List (String × ℚ)) (i : Nat) :
    List (String × ℚ) :=
  if i < n then topRulesOuter n (topRulesInner n i arr (i+1)) (i+1)
  else arr
termination_by n - i
decreasing_by omega

/-- `DataCollector.GetTopRules(n)`: the rule ids with the highest
acceptance rates, obtained by the source's exchange sort (descending,
strict comparison) over the store's rules in order. -/
def GetTopRules (s : Store) (n : Nat) : List String :=
  let rates := s.map (fun p => (p.1, GetAcceptanceRate s p.1))
  let sorted := topRulesOuter rates.length rates 0
  (sorted.take n).map (·.1)

/-- `LearningEngine.SuggestCustomRules`. -/
def SuggestCustomRules (enableLearning : Bool) (s : Store) : List String :=
  if !enableLearning then []
  else (GetTopRules s 5).map
    (fun rule => "Consider creating custom rules similar to " ++ rule)

/-- `cmd.ApplyLearning(issues, repository, cfg)`: with learning disabled
it returns `(issues, nil, nil)` before touching the learning engine;
otherwise it adjusts every issue's confidence in place, filters, sorts,
and collects insights. The learning-engine construction (store load
from disk) is embedded as the `s : Store` argument and assumed to
succeed, so the returned error is `none` on both paths. -/
def ApplyLearning (enableLearning : Bool) (s : Store) (issues : List Issue)
    (repository : String) : List Issue × List String × Option String :=
  if !enableLearning then (issues, [], none)
  else
    let adjusted := issues.map (AdjustIssueConfidence enableLearning s)
    let filteredIssues := FilterIssues enableLearning s adjusted
    let sortedIssues := SortIssues enableLearning s filteredIssues
    let insights := AnalyzeProjectPatterns enableLearning repository adjusted
    let customRules := SuggestCustomRules enableLearning s
    let insights :=
      if customRules.length > 0 then
        insights ++ ("Suggested custom rules:" :: customRules)
      else insights
    (sortedIssues, insights, none)

/-! ## The analyzer (`internal/analyzer/analyzer.go`) -/

/-- `models.File`: the fields `Analyze` uses. -/
structure GoFile where
  path : String
  relPath : String
deriving Repr, DecidableEq

/-- `analyzer.Results`. -/
structure Results where
  issues : List Issue
  totalIssues : Nat
  criticalIssues : Nat
  highIssues : Nat
  mediumIssues : Nat
  lowIssues : Nat
deriving Repr, DecidableEq

/-- One iteration of the severity-counting loop at the end of
`Analyzer.Analyze`: increment the total for every issue and the tier
counter matching its severity string. -/
def severityStep (r : Results) (issue : Issue) : Results :=
  let r := { r with totalIssues := r.totalIssues + 1 }
  match issue.severity with
  | "critical" => { r with criticalIssues := r.criticalIssues + 1 }
  | "high" => { r with highIssues := r.highIssues + 1 }
  | "medium" => { r with mediumIssues := r.mediumIssues + 1 }
  | "low" => { r with lowIssues := r.lowIssues + 1 }
  | _ => r

/-- The severity-counting loop: one scan of the merged list. -/
def countBySeverity (issues : List Issue) : Results :=
  issues.foldl severityStep
    { issues := issues, totalIssues := 0, criticalIssues := 0,
      highIssues := 0, mediumIssues := 0, lowIssues := 0 }

/-- The per-file fan-out of `Analyzer.Analyze`, embedded sequentially in
input order (one legal schedule of the goroutines; the merge order
across files is unspecified in the source, the contents are not).
`analyzeFile` stands for `Analyzer.analyzeFile` (file read, parse and
detector walk — external I/O plus pure detectors), yielding either the
file's issues or its error. Returns the merged issue list and the lines
printed by the verbose-only `println` calls. -/
def analyzeFiles (verbose : Bool)
    (analyzeFile : GoFile → Except String (List Issue)) :
    List GoFile → List Issue × List String
  | [] => ([], [])
  | f :: rest =>
      let (issues, log) := analyzeFiles verbose analyzeFile rest
      match analyzeFile f with
      | Except.ok fileIssues => (fileIssues ++ issues, log)
      | Except.error e =>
          (issues,
            (if verbose then ["Error analyzing file " ++ f.path ++ " : " ++ e]
             else []) ++ log)

/-- `Analyzer.Analyze`: run every file's unit of work, then (when the
file list is non-empty) run the security scanner once over the
repository root and merge its findings on success (on failure, log when
verbose and proceed with zero security findings), then compute the
severity counts by one scan of the merged list. `securityScan` stands
for `a.securityScanner.Scan(repoPath)`, an external call. -/
def Analyze (verbose : Bool)
    (analyzeFile : GoFile → Except String (List Issue))
    (securityScan : Except String (List Issue))
    (files : List GoFile) : Results × List String :=
  let (issues, log) := analyzeFiles verbose analyzeFile files
  let (issues, log) :=
    if files.length > 0 then
      match securityScan with
      | Except.ok securityIssues => (issues ++ securityIssues, log)
      | Except.error e =>
          (issues,
            log ++ (if verbose then ["Error running security scanner: " ++ e] else []))
    else (issues, log)
  (countBySeverity issues, log)

/-! ## Derived notions used by the verification -/

/-- The records stored under a rule: the store's list for that key,
empty when the key is absent (zero history). -/
def recordsUnder (s : Store) (ruleID : String) : List LearningData :=
  (storeFind s ruleID).getD []

/-- All records of the store in scan order: rules in order, and within
a rule its records in insertion order. -/
def allRecords (s : Store) : List LearningData :=
  (s.map Prod.snd).flatten

/-- Update the first record of a record list whose key matches, leaving
every other record unchanged (the behaviour the specification ascribes
to feedback submission, stated on the flattened scan order). -/
def flipFirst (issueID : String) (accepted : Bool) :
    List LearningData → List LearningData
  | [] => []
  | d :: rest =>
      if feedbackKey d = issueID then { d with accepted := accepted } :: rest
      else d :: flipFirst issueID accepted rest

/-! ## Concrete sample data for witnesses and counterexamples -/

/-- A sample finding. -/
def sampleIssue : Issue :=
  { file := "main.go", line := 10, column := 2, message := "Error not handled",
    category := "code-smell", severity := "high", confidence := "medium",
    suggestion := "handle the error", code := "_ = err",
    rule := "error-not-handled" }

/-- A sample accepted learning record for `sampleIssue`. -/
def sampleAccepted : LearningData :=
  { issue := sampleIssue, accepted := true, repository := "repo", timestamp := 5 }

/-- A store holding one accepted record under `sampleIssue`'s rule, so
that rule's acceptance rate is 1. -/
def sampleStore : Store := [("error-not-handled", [sampleAccepted])]

/-- Findings for the sort-stability analysis, indexed by message. -/
def c1Issue (sev msg : String) : Issue :=
  { file := "main.go", line := 1, column := 1, message := msg,
    category := "code-smell", severity := sev, confidence := "medium",
    suggestion := "", code := "", rule := "unused-variable" }

/-- Seven findings under one rule with empty feedback history. The two
`high` findings (messages "1" and "6") have equal combined score. -/
def c1Input : List Issue :=
  [c1Issue "low" "0", c1Issue "high" "1", c1Issue "medium" "2",
   c1Issue "medium" "3", c1Issue "medium" "4", c1Issue "medium" "5",
   c1Issue "high" "6"]

/-- A file whose content parses. -/
def c8good : GoFile := { path := "/repo/good.go", relPath := "good.go" }

/-- A file whose content does not parse. -/
def c8bad : GoFile := { path := "/repo/bad.go", relPath := "bad.go" }

/-- A finding of the parsed file. -/
def c8issueA : Issue :=
  { file := "good.go", line := 3, column := 1, message := "A",
    category := "code-smell", severity := "high", confidence := "medium",
    suggestion := "", code := "", rule := "r1" }

/-- A second finding of the parsed file. -/
def c8issueB : Issue :=
  { file := "good.go", line := 7, column := 1, message := "B",
    category := "best-practice", severity := "medium", confidence := "high",
    suggestion := "", code := "", rule := "r2" }

/-- Per-file analysis outcomes: `good.go` yields two findings, `bad.go`
fails to parse. -/
def c8oracle (f : GoFile) : Except String (List Issue) :=
  if f.path = "/repo/good.go" then Except.ok [c8issueA, c8issueB]
  else Except.error "bad.go:1:1: expected declaration"

/-! ## Basic lemmas -/

lemma getAcceptanceRate_nil (r : String) : GetAcceptanceRate [] r = 1/2 := rfl

/-- Over the empty store every acceptance rate is the neutral 0.5, so
the sort comparison reduces to comparing integer severity scores. -/
lemma lessIdx_nil (arr : List Issue) (i j : Nat) :
    lessIdx [] arr i j =
      decide (getSeverityScore (getIssue arr j).severity <
              getSeverityScore (getIssue arr i).severity) := by
  unfold lessIdx combinedScore
  apply decide_eq_decide.mpr
  rw [getAcceptanceRate_nil, getAcceptanceRate_nil,
    mul_lt_mul_right (by norm_num : (0:ℚ) < 1/2 + 1/2 * (1/2))]
  exact Int.cast_lt

lemma storeFind_storeAppend_self (s : Store) (r : String) (d : LearningData) :
    storeFind (storeAppend s r d) r = some (recordsUnder s r ++ [d]) := by
  induction s with
  | nil => simp [storeAppend, storeFind, recordsUnder]
  | cons p rest ih =>
      obtain ⟨r', ds⟩ := p
      by_cases h : r' = r
      · subst h
        simp [storeAppend, storeFind, recordsUnder]
      · simp [storeAppend, storeFind, recordsUnder, h, ih]

lemma storeFind_storeAppend_ne (s : Store) (r r' : String) (d : LearningData)
    (h : r' ≠ r) :
    storeFind (storeAppend s r d) r' = storeFind s r' := by
  induction s with
  | nil => simp [storeAppend, storeFind, Ne.symm h]
  | cons p rest ih =>
      obtain ⟨r0, ds⟩ := p
      by_cases h0 : r0 = r
      · subst h0
        simp [storeAppend, storeFind, Ne.symm h]
      · simp only [storeAppend, storeFind, if_neg h0]
        by_cases h1 : r0 = r'
        · simp [h1]
        · simp [h1, ih]

lemma updateFirstMatch_none_iff (issueID : String) (accepted : Bool)
    (ds : List LearningData) :
    updateFirstMatch issueID accepted ds = none ↔
      ∀ d ∈ ds, feedbackKey d ≠ issueID := by
  induction ds with
  | nil => simp [updateFirstMatch]
  | cons d rest ih =>
      by_cases h : feedbackKey d = issueID
      · simp [updateFirstMatch, h]
      · simp only [updateFirstMatch, if_neg h]
        cases hrec : updateFirstMatch issueID accepted rest with
        | some rest' =>
            simp only [List.mem_cons]
            constructor
            · intro hfalse; exact Option.noConfusion hfalse
            · intro hall
              have hnone : updateFirstMatch issueID accepted rest = none :=
                ih.mpr (fun d' hd' => hall d' (Or.inr hd'))
              rw [hrec] at hnone
              exact Option.noConfusion hnone
        | none =>
            have hall := ih.mp hrec
            simp only [List.mem_cons]
            constructor
            · intro _ d' hd'
              rcases hd' with h' | h'
              · subst h'; exact h
              · exact hall d' h'
            · intro _; exact trivial

lemma updateFirstMatch_eq_flip (issueID : String) (accepted : Bool)
    (ds ds' : List LearningData)
    (h : updateFirstMatch issueID accepted ds = some ds') :
    ds' = flipFirst issueID accepted ds := by
  induction ds generalizing ds' with
  | nil => simp [updateFirstMatch] at h
  | cons d rest ih =>
      by_cases hk : feedbackKey d = issueID
      · simp only [updateFirstMatch, if_pos hk] at h
        simp only [flipFirst, if_pos hk]
        exact (Option.some.inj h).symm
      · simp only [updateFirstMatch, if_neg hk] at h
        cases hrec : updateFirstMatch issueID accepted rest with
        | some rest' =>
            rw [hrec] at h
            simp only [Option.some.injEq] at h
            simp only [flipFirst, if_neg hk]
            rw [← h, ih rest' hrec]
        | none => rw [hrec] at h; cases h

lemma flipFirst_append_no_match_left (issueID : String) (accepted : Bool)
    (l r : List LearningData) (h : ∀ d ∈ l, feedbackKey d ≠ issueID) :
    flipFirst issueID accepted (l ++ r) = l ++ flipFirst issueID accepted r := by
  induction l with
  | nil => simp
  | cons d rest ih =>
      simp only [List.cons_append, flipFirst,
        if_neg (h d (List.mem_cons_self d rest)), List.append_eq]
      rw [ih (fun d' hd' => h d' (List.mem_cons_of_mem d hd'))]

lemma flipFirst_append_match_left (issueID : String) (accepted : Bool)
    (l r : List LearningData) (h : ∃ d ∈ l, feedbackKey d = issueID) :
    flipFirst issueID accepted (l ++ r) = flipFirst issueID accepted l ++ r := by
  induction l with
  | nil => simp at h
  | cons d rest ih =>
      by_cases hk : feedbackKey d = issueID
      · simp [flipFirst, hk]
      · simp only [List.cons_append, flipFirst, if_neg hk, List.cons.injEq,
          true_and]
        apply ih
        rcases h with ⟨d', hd', hkey⟩
        rcases List.mem_cons.mp hd' with h' | h'
        · subst h'; exact absurd hkey hk
        · exact ⟨d', h', hkey⟩

lemma allRecords_cons (r : String) (ds : List LearningData) (rest : Store) :
    allRecords ((r, ds) :: rest) = ds ++ allRecords rest := rfl

lemma recordFeedbackLoop_not_found (issueID : String) (accepted : Bool)
    (s : Store) (h : ∀ d ∈ allRecords s, feedbackKey d ≠ issueID) :
    recordFeedbackLoop issueID accepted s =
      Except.error ("issue not found: " ++ issueID) := by
  induction s with
  | nil => rfl
  | cons p rest ih =>
      obtain ⟨r, ds⟩ := p
      rw [allRecords_cons] at h
      have hds : ∀ d ∈ ds, feedbackKey d ≠ issueID :=
        fun d hd => h d (List.mem_append_left _ hd)
      have hrest : ∀ d ∈ allRecords rest, feedbackKey d ≠ issueID :=
        fun d hd => h d (List.mem_append_right _ hd)
      simp only [recordFeedbackLoop,
        (updateFirstMatch_none_iff issueID accepted ds).mpr hds, ih hrest]

lemma recordFeedbackLoop_found (issueID : String) (accepted : Bool)
    (s : Store) (h : ∃ d ∈ allRecords s, feedbackKey d = issueID) :
    ∃ s', recordFeedbackLoop issueID accepted s = Except.ok s' ∧
      s'.map Prod.fst = s.map Prod.fst ∧
      allRecords s' = flipFirst issueID accepted (allRecords s) := by
  induction s with
  | nil => simp [allRecords] at h
  | cons p rest ih =>
      obtain ⟨r, ds⟩ := p
      cases hu : updateFirstMatch issueID accepted ds with
      | some ds' =>
          have hex : ∃ d ∈ ds, feedbackKey d = issueID := by
            by_contra hc
            push_neg at hc
            rw [(updateFirstMatch_none_iff issueID accepted ds).mpr hc] at hu
            exact Option.noConfusion hu
          refine ⟨(r, ds') :: rest, ?_, ?_, ?_⟩
          · simp [recordFeedbackLoop, hu]
          · simp
          · rw [allRecords_cons, allRecords_cons,
              updateFirstMatch_eq_flip issueID accepted ds ds' hu,
              flipFirst_append_match_left issueID accepted ds (allRecords rest) hex]
      | none =>
          have hds : ∀ d ∈ ds, feedbackKey d ≠ issueID :=
            (updateFirstMatch_none_iff issueID accepted ds).mp hu
          have hrest : ∃ d ∈ allRecords rest, feedbackKey d = issueID := by
            rcases h with ⟨d, hd, hk⟩
            rw [allRecords_cons] at hd
            rcases List.mem_append.mp hd with h' | h'
            · exact absurd hk (hds d h')
            · exact ⟨d, h', hk⟩
          obtain ⟨rest', h1, h2, h3⟩ := ih hrest
          refine ⟨(r, ds) :: rest', ?_, ?_, ?_⟩
          · simp [recordFeedbackLoop, hu, h1]
          · simp [h2]
          · rw [allRecords_cons, allRecords_cons, h3,
              flipFirst_append_no_match_left issueID accepted ds (allRecords rest) hds]

lemma foldl_severityStep (l : List Issue) (r : Results) :
    l.foldl severityStep r =
      { issues := r.issues,
        totalIssues := r.totalIssues + l.length,
        criticalIssues := r.criticalIssues + l.countP (fun i => i.severity == "critical"),
        highIssues := r.highIssues + l.countP (fun i => i.severity == "high"),
        mediumIssues := r.mediumIssues + l.countP (fun i => i.severity == "medium"),
        lowIssues := r.lowIssues + l.countP (fun i => i.severity == "low") } := by
  induction l generalizing r with
  | nil => simp
  | cons a t ih =>
      rw [List.foldl_cons, ih]
      simp only [severityStep]
      split <;>
        simp_all [List.countP_cons, Results.mk.injEq, beq_iff_eq] <;>
        omega

lemma countBySeverity_spec (l : List Issue) :
    countBySeverity l =
      { issues := l,
        totalIssues := l.length,
        criticalIssues := l.countP (fun i => i.severity == "critical"),
        highIssues := l.countP (fun i => i.severity == "high"),
        mediumIssues := l.countP (fun i => i.severity == "medium"),
        lowIssues := l.countP (fun i => i.severity == "low") } := by
  rw [countBySeverity, foldl_severityStep]
  simp

lemma analyzeFiles_spec (verbose : Bool)
    (oracle : GoFile → Except String (List Issue)) (files : List GoFile) :
    analyzeFiles verbose oracle files =
      ((files.map (fun f => (oracle f).toOption.getD [])).flatten,
       if verbose then
         files.filterMap (fun f =>
           match oracle f with
           | Except.ok _ => none
           | Except.error e => some ("Error analyzing file " ++ f.path ++ " : " ++ e))
       else []) := by
  induction files with
  | nil => cases verbose <;> simp [analyzeFiles]
  | cons f rest ih =>
      simp only [analyzeFiles, ih]
      cases h : oracle f with
      | ok issues => cases verbose <;> simp [h, Except.toOption, List.filterMap_cons]
      | error e => cases verbose <;> simp [h, Except.toOption, List.filterMap_cons]

lemma getAcceptanceRate_no_history (s : Store) (r : String)
    (h : recordsUnder s r = []) : GetAcceptanceRate s r = 1/2 := by
  unfold GetAcceptanceRate
  unfold recordsUnder at h
  cases hf : storeFind s r with
  | none => rfl
  | some l =>
      rw [hf] at h
      simp only [Option.getD_some] at h
      subst h
      simp

lemma getAcceptanceRate_with_history (s : Store) (r : String)
    (h : recordsUnder s r ≠ []) :
    GetAcceptanceRate s r =
      ((recordsUnder s r).countP (·.accepted) : ℚ) /
        ((recordsUnder s r).length : ℚ) := by
  unfold GetAcceptanceRate
  unfold recordsUnder at h ⊢
  cases hf : storeFind s r with
  | none => rw [hf] at h; simp at h
  | some l =>
      rw [hf] at h
      simp only [Option.getD_some] at h ⊢
      rw [if_neg (by simpa using h)]

/-! ## The claims -/

/-- C4: for every rule identifier, `GetAcceptanceRate` returns the number
of accepted records divided by the total number of records stored under
that rule, and exactly 0.5 when the rule has zero history. -/
theorem getAcceptanceRate_ratio_default (s : Store) (ruleID : String) :
    (recordsUnder s ruleID = [] → GetAcceptanceRate s ruleID = 1/2) ∧
    (recordsUnder s ruleID ≠ [] →
      GetAcceptanceRate s ruleID =
        ((recordsUnder s ruleID).countP (·.accepted) : ℚ) /
          ((recordsUnder s ruleID).length : ℚ)) :=
  ⟨getAcceptanceRate_no_history s ruleID, getAcceptanceRate_with_history s ruleID⟩

/-- Witness for C4: the empty store gives the neutral default 0.5, and a
rule with one accepted record out of one gives rate 1. -/
theorem getAcceptanceRate_ratio_default_witness :
    GetAcceptanceRate [] "R1" = 1/2 ∧
    GetAcceptanceRate sampleStore "error-not-handled" = 1 := by
  constructor
  · exact (getAcceptanceRate_ratio_default [] "R1").1 rfl
  · have h := (getAcceptanceRate_ratio_default sampleStore "error-not-handled").2
      (by simp [recordsUnder, storeFind, sampleStore])
    rw [h]
    norm_num [recordsUnder, storeFind, sampleStore, sampleAccepted]

/-- C2: with learning enabled, `FilterIssues` removes exactly the findings
whose rule acceptance rate is below 0.3 and no others (it is the filter
keeping the rest, in order), and a finding whose rule has no history
(default rate 0.5) is never removed. -/
theorem filterIssues_removes_exactly_low_acceptance (s : Store)
    (issues : List Issue) :
    FilterIssues true s issues =
      issues.filter (fun issue => !decide (GetAcceptanceRate s issue.rule < 3/10)) ∧
    ∀ issue ∈ issues, recordsUnder s issue.rule = [] →
      issue ∈ FilterIssues true s issues := by
  have hfe : FilterIssues true s issues =
      issues.filter (fun issue => !decide (GetAcceptanceRate s issue.rule < 3/10)) := by
    unfold FilterIssues
    simp only [Bool.not_true, Bool.false_eq_true, if_false]
    apply List.filter_congr
    intro i _
    rw [← decide_not]
    exact decide_eq_decide.mpr not_lt.symm
  refine ⟨hfe, fun issue hmem hhist => ?_⟩
  rw [hfe]
  apply List.mem_filter.mpr
  refine ⟨hmem, ?_⟩
  rw [getAcceptanceRate_no_history s issue.rule hhist]
  norm_num

/-- Witness for C2: a finding whose rule has no history passes the filter. -/
theorem filterIssues_removes_exactly_low_acceptance_witness :
    sampleIssue ∈ FilterIssues true [] [sampleIssue] :=
  (filterIssues_removes_exactly_low_acceptance [] [sampleIssue]).2 sampleIssue
    (List.mem_singleton.mpr rfl) rfl

/-- C10: the list returned by `FilterIssues` is a subsequence of its
input (elements come from the input, in input order, without
duplication), and with learning disabled the input is returned as-is. -/
theorem filterIssues_subsequence (enableLearning : Bool) (s : Store)
    (issues : List Issue) :
    List.Sublist (FilterIssues enableLearning s issues) issues ∧
    FilterIssues false s issues = issues := by
  refine ⟨?_, rfl⟩
  cases enableLearning with
  | false => exact List.Sublist.refl issues
  | true =>
      unfold FilterIssues
      simp only [Bool.not_true, Bool.false_eq_true, if_false]
      exact List.filter_sublist issues

/-- C5: with the learning feature disabled, `ApplyLearning` returns the
input list unchanged with no insights and no error, and iterating it any
number of times leaves the list identical. -/
theorem applyLearning_disabled_pass_through (s : Store) (issues : List Issue)
    (repository : String) (n : Nat) :
    ApplyLearning false s issues repository = (issues, [], none) ∧
    (fun xs => (ApplyLearning false s xs repository).1)^[n] issues = issues := by
  refine ⟨rfl, ?_⟩
  induction n with
  | zero => rfl
  | succ k ih =>
      rw [Function.iterate_succ_apply]
      exact ih

/-- C3: with learning enabled, `AdjustIssueConfidence` moves the finding's
confidence at most one step on low < medium < high: rate ≥ 0.8 promotes
medium to high and low to medium (high stays high); rate < 0.5 demotes
high to medium and medium to low (low stays low); for 0.5 ≤ rate < 0.8
the finding is unchanged. Confidence strings outside the three-valued
enumeration are never changed. -/
theorem adjustIssueConfidence_one_step (s : Store) (issue : Issue) :
    (GetAcceptanceRate s issue.rule ≥ 4/5 →
      AdjustIssueConfidence true s issue =
        { issue with confidence :=
            if issue.confidence = "medium" then "high"
            else if issue.confidence = "low" then "medium"
            else issue.confidence }) ∧
    (GetAcceptanceRate s issue.rule < 1/2 →
      AdjustIssueConfidence true s issue =
        { issue with confidence :=
            if issue.confidence = "high" then "medium"
            else if issue.confidence = "medium" then "low"
            else issue.confidence }) ∧
    (1/2 ≤ GetAcceptanceRate s issue.rule →
      GetAcceptanceRate s issue.rule < 4/5 →
      AdjustIssueConfidence true s issue = issue) := by
  refine ⟨fun h => ?_, fun h => ?_, fun h1 h2 => ?_⟩
  · have hc : GetRuleConfidence s issue.rule = "high" := by
      unfold GetRuleConfidence
      simp only [if_pos h]
    simp only [AdjustIssueConfidence, Bool.not_true, Bool.false_eq_true,
      if_false, hc]
    split <;> simp_all
    rename_i heq
    rw [← heq]
  · have hc : GetRuleConfidence s issue.rule = "low" := by
      unfold GetRuleConfidence
      rw [if_neg (not_le.mpr (lt_of_lt_of_le h (by norm_num))),
        if_neg (not_le.mpr h)]
    simp only [AdjustIssueConfidence, Bool.not_true, Bool.false_eq_true,
      if_false, hc]
    split <;> simp_all
    rename_i heq
    rw [← heq]
  · have hc : GetRuleConfidence s issue.rule = "medium" := by
      unfold GetRuleConfidence
      rw [if_neg (not_le.mpr h2), if_pos h1]
    simp only [AdjustIssueConfidence, Bool.not_true, Bool.false_eq_true,
      if_false, hc]
    split <;> simp_all

/-- Witness for C3: under `sampleStore` the sample rule's rate is 1 ≥ 0.8,
and the medium-confidence sample finding is promoted to high. -/
theorem adjustIssueConfidence_one_step_witness :
    AdjustIssueConfidence true sampleStore sampleIssue =
      { sampleIssue with confidence := "high" } := by
  have hrate : GetAcceptanceRate sampleStore sampleIssue.rule ≥ 4/5 := by
    norm_num [GetAcceptanceRate, storeFind, sampleStore, sampleIssue,
      sampleAccepted]
  have h := (adjustIssueConfidence_one_step sampleStore sampleIssue).1 hrate
  rw [h]
  rfl

/-- C6: with learning enabled, `RecordFeedback` looks for the first record
(over all rules in store order, records in insertion order) whose
(file, line, message) key matches; when one exists it returns the store
with exactly that record's accepted flag set (everything else unchanged,
stated on the flattened scan order), and when none exists it returns the
"issue not found" error, persisting nothing, so the store is unchanged. -/
theorem recordFeedback_first_match_or_not_found (s : Store) (issueID : String)
    (accepted : Bool) :
    ((∀ d ∈ allRecords s, feedbackKey d ≠ issueID) →
      RecordFeedback true s issueID accepted =
        Except.error ("issue not found: " ++ issueID)) ∧
    ((∃ d ∈ allRecords s, feedbackKey d = issueID) →
      ∃ s', RecordFeedback true s issueID accepted = Except.ok s' ∧
        s'.map Prod.fst = s.map Prod.fst ∧
        allRecords s' = flipFirst issueID accepted (allRecords s)) :=
  ⟨fun h => recordFeedbackLoop_not_found issueID accepted s h,
   fun h => recordFeedbackLoop_found issueID accepted s h⟩

/-- Witness for C6: feedback on the sample record's key succeeds and flips
exactly that record. -/
theorem recordFeedback_first_match_or_not_found_witness :
    ∃ s', RecordFeedback true sampleStore (feedbackKey sampleAccepted) false =
        Except.ok s' ∧
      s'.map Prod.fst = sampleStore.map Prod.fst ∧
      allRecords s' =
        flipFirst (feedbackKey sampleAccepted) false (allRecords sampleStore) :=
  (recordFeedback_first_match_or_not_found sampleStore
      (feedbackKey sampleAccepted) false).2
    ⟨sampleAccepted, by simp [allRecords, sampleStore], rfl⟩

/-- C7: with learning enabled, `RecordIssue` appends exactly one record
with accepted = false under the finding's rule key, leaves every other
rule's records unchanged, and is not idempotent: calling it twice for the
same finding appends two records under that rule. -/
theorem recordIssue_appends_single_record (s : Store) (issue : Issue)
    (repository : String) (t1 t2 : Nat) :
    recordsUnder (RecordIssue true s issue repository t1) issue.rule =
      recordsUnder s issue.rule ++
        [{ issue := issue, accepted := false, repository := repository,
           timestamp := t1 }] ∧
    (∀ r, r ≠ issue.rule →
      recordsUnder (RecordIssue true s issue repository t1) r =
        recordsUnder s r) ∧
    recordsUnder
        (RecordIssue true (RecordIssue true s issue repository t1) issue
          repository t2) issue.rule =
      recordsUnder s issue.rule ++
        [{ issue := issue, accepted := false, repository := repository,
           timestamp := t1 },
         { issue := issue, accepted := false, repository := repository,
           timestamp := t2 }] := by
  refine ⟨?_, fun r hr => ?_, ?_⟩
  · unfold RecordIssue recordsUnder
    simp only [Bool.not_true, Bool.false_eq_true, if_false]
    rw [storeFind_storeAppend_self]
    rfl
  · unfold RecordIssue recordsUnder
    simp only [Bool.not_true, Bool.false_eq_true, if_false]
    rw [storeFind_storeAppend_ne s issue.rule r _ hr]
  · unfold RecordIssue recordsUnder
    simp only [Bool.not_true, Bool.false_eq_true, if_false]
    rw [storeFind_storeAppend_self]
    simp only [Option.getD_some]
    unfold recordsUnder
    rw [storeFind_storeAppend_self]
    simp [recordsUnder, List.append_assoc]

/-- Witness for C7: recording the sample finding on the empty store leaves
an unrelated rule's (empty) record list unchanged. -/
theorem recordIssue_appends_single_record_witness :
    recordsUnder (RecordIssue true [] sampleIssue "repo" 1) "other-rule" =
      recordsUnder ([] : Store) "other-rule" :=
  (recordIssue_appends_single_record [] sampleIssue "repo" 1 2).2.1 "other-rule"
    (by decide)

lemma analyze_fst_is_count (verbose : Bool)
    (oracle : GoFile → Except String (List Issue))
    (sec : Except String (List Issue)) (files : List GoFile) :
    ∃ l, (Analyze verbose oracle sec files).1 = countBySeverity l := by
  unfold Analyze
  cases haf : analyzeFiles verbose oracle files with
  | mk issues0 log0 =>
      dsimp only
      by_cases hlen : files.length > 0
      · rw [if_pos hlen]
        cases sec <;> exact ⟨_, rfl⟩
      · rw [if_neg hlen]
        exact ⟨_, rfl⟩

/-- C9: after `Analyze` returns, `TotalIssues` equals the length of the
merged issue list and each per-tier counter equals the number of merged
findings with that severity, computed by the single final scan. -/
theorem analyze_severity_counts (verbose : Bool)
    (oracle : GoFile → Except String (List Issue))
    (sec : Except String (List Issue)) (files : List GoFile) :
    ((Analyze verbose oracle sec files).1.totalIssues =
        (Analyze verbose oracle sec files).1.issues.length) ∧
    ((Analyze verbose oracle sec files).1.criticalIssues =
        (Analyze verbose oracle sec files).1.issues.countP
          (fun i => i.severity == "critical")) ∧
    ((Analyze verbose oracle sec files).1.highIssues =
        (Analyze verbose oracle sec files).1.issues.countP
          (fun i => i.severity == "high")) ∧
    ((Analyze verbose oracle sec files).1.mediumIssues =
        (Analyze verbose oracle sec files).1.issues.countP
          (fun i => i.severity == "medium")) ∧
    ((Analyze verbose oracle sec files).1.lowIssues =
        (Analyze verbose oracle sec files).1.issues.countP
          (fun i => i.severity == "low")) := by
  obtain ⟨l, hl⟩ := analyze_fst_is_count verbose oracle sec files
  rw [hl, countBySeverity_spec]
  exact ⟨rfl, rfl, rfl, rfl, rfl⟩

/-- C8 (amended): a parse failure on one file never aborts the run: the
merged issue list is exactly the concatenation of the successfully
analyzed files' findings plus (for a non-empty file set) the security
scan's findings when the scan succeeds; the per-file parse errors are
only printed to the console when verbose mode is on — they are not
recorded in the returned result. -/
theorem analyze_partial_results (verbose : Bool)
    (oracle : GoFile → Except String (List Issue))
    (sec : Except String (List Issue)) (files : List GoFile) :
    (Analyze verbose oracle sec files).1.issues =
      (files.map (fun f => (oracle f).toOption.getD [])).flatten ++
        (if 0 < files.length then sec.toOption.getD [] else []) ∧
    (Analyze verbose oracle sec files).2 =
      (if verbose then
        files.filterMap (fun f =>
          match oracle f with
          | Except.ok _ => none
          | Except.error e =>
              some ("Error analyzing file " ++ f.path ++ " : " ++ e))
      else []) ++
        (if 0 < files.length then
          match sec with
          | Except.ok _ => []
          | Except.error e =>
              if verbose then ["Error running security scanner: " ++ e] else []
        else []) := by
  unfold Analyze
  rw [analyzeFiles_spec]
  dsimp only
  by_cases hlen : 0 < files.length
  · rw [if_pos hlen, if_pos hlen, if_pos hlen]
    cases sec with
    | ok l =>
        rw [countBySeverity_spec]
        cases verbose <;> simp [Except.toOption]
    | error e =>
        rw [countBySeverity_spec]
        cases verbose <;> simp [Except.toOption]
  · rw [if_neg hlen, if_neg hlen, if_neg hlen]
    rw [countBySeverity_spec]
    cases verbose <;> simp

/-- Counterexample to C8 as stated: with the default (non-verbose)
configuration, a run over one parsing and one non-parsing file completes
with exactly the parsed file's two findings and correct counts, but no
parse error is recorded anywhere in the output — the result has no error
component and the console log is empty, refuting "a per-file parse error
is recorded for the failing file". -/
theorem analyze_no_parse_error_recorded :
    Analyze false c8oracle (Except.ok []) [c8good, c8bad] =
      ({ issues := [c8issueA, c8issueB], totalIssues := 2, criticalIssues := 0,
         highIssues := 1, mediumIssues := 1, lowIssues := 0 }, []) := by
  rfl

/-- C1: the per-finding score is severityScore × (0.5 + 0.5 × rate) and
`SortIssues` sorts descending by it, but the sort is NOT stable: on seven
findings under one rule with empty history (equal rates 0.5), the two
score-2.25 findings with messages "1" and "6" (input order "1" before
"6") come out as "6" before "1" — Go 1.18's `sort.Slice` begins the
at-most-12-element case with a gap-6 shell pass that swaps positions 0
and 6 across the equal pair. The spec requires a stable sort
(`sort.SliceStable`), so this evaluates the code at the failing input. -/
theorem sortIssues_not_stable_at_seven_findings :
    combinedScore [] (c1Issue "high" "1") = combinedScore [] (c1Issue "high" "6") ∧
    c1Input.map (fun i => i.message) = ["0", "1", "2", "3", "4", "5", "6"] ∧
    (SortIssues true [] c1Input).map (fun i => i.message) =
      ["6", "1", "2", "3", "4", "5", "0"] := by
  refine ⟨rfl, rfl, ?_⟩
  simp [SortIssues, sortSliceGo, maxDepthGo, bitsDepth, quickSortGo,
    shellPassLoop, insertionSortGo, insertionSortOuter, insertionSortInner,
    lessIdx_nil, swapIdx, getIssue, getSeverityScore, c1Input, c1Issue,
    List.getD]

end CodeReview





